import Mathlib

/-!
Verification development for the SplitSonic client session engine.

The definitions below are a shallow embedding of the client code:

* `Splitsonic.generateLayersFromFiles` embeds the stem-layer derivation of
  `MusicLibraryContext.tsx` (`generateLayersFromFiles`).
* `Splitsonic.loadLibrary` embeds the library reconciliation pass
  (`loadLibrary`): localStorage parsing, ownership filtering, the
  remote merge loop and the final timestamp sort.
* `Splitsonic.playToggle`, `Splitsonic.stopAllPlayback`,
  `Splitsonic.teardownTrack`, `Splitsonic.onEnded`,
  `Splitsonic.handlePlayAll` embed the playback engine
  (`handlePlayToggle`, `stopAllPlayback`, the teardown loop in
  `removeMusicUrl`, the `onended` callback, `handlePlayAll`).
* `Splitsonic.processCommand` embeds the voice-command dispatcher of
  `SpeechControl.tsx` (`processCommand`), as a pure function from the
  utterance and the library to a matched flag and a list of effects.
* `Splitsonic.stopListening` / `Splitsonic.onInactivityTimeout` embed the
  voice-pipeline teardown and the inactivity timer handler.

JavaScript strings are modelled as `String`; case-insensitive operations
use `Char.toLower`/`Char.toUpper`, which agree with JavaScript on the
ASCII data this application manipulates.  Machine timestamps
(`Date.getTime()`) are modelled as `Option Int`: `none` stands for an
`Invalid Date` (`getTime()` returning `NaN`).  Optional/possibly-empty
JavaScript string fields are `Option String`, with the JS truthiness test
`!s` captured by `truthyStr`.
-/

namespace Splitsonic

/-! Character-list string helpers -/

/-- Lower-case a character list (models `String.prototype.toLowerCase` on
ASCII input). -/
def lowerChars (l : List Char) : List Char := l.map Char.toLower

/-- Embeds `hay.includes(needle)` of JavaScript: some suffix of `hay` starts with
`needle`. -/
def containsStr (hay needle : List Char) : Bool :=
  hay.tails.any (fun t => needle.isPrefixOf t)

/-- JavaScript whitespace test for `String.prototype.trim` (the characters
that occur in this application's data). -/
def isWsChar (c : Char) : Bool := c = ' ' || c = '\t' || c = '\n' || c = '\r'

/-- Embeds `String.prototype.trim`: strip leading and trailing whitespace. -/
def trimChars (l : List Char) : List Char :=
  ((l.dropWhile isWsChar).reverse.dropWhile isWsChar).reverse

/-- Lexicographic comparison of character lists by code point; models
`String.prototype.localeCompare` on this application's ASCII display
names. -/
def lexLe : List Char → List Char → Bool
  | [], _ => true
  | _ :: _, [] => false
  | a :: as, b :: bs =>
    if a.toNat < b.toNat then true
    else if b.toNat < a.toNat then false
    else lexLe as bs

theorem lexLe_cons_iff (a b : Char) (as bs : List Char) :
    lexLe (a :: as) (b :: bs) = true ↔
      a.toNat < b.toNat ∨ (a.toNat = b.toNat ∧ lexLe as bs = true) := by
  simp only [lexLe]
  by_cases h1 : a.toNat < b.toNat
  · simp [h1]
  · by_cases h2 : b.toNat < a.toNat
    · simp only [h1, h2, if_false, if_true]
      constructor
      · intro h; exact (Bool.false_ne_true h).elim
      · rintro (h | ⟨h, _⟩)
        · exact h.elim
        · exact absurd h2 (by omega)
    · have heq : a.toNat = b.toNat := by omega
      simp [h1, h2, heq]

theorem lexLe_total : ∀ x y : List Char, lexLe x y = true ∨ lexLe y x = true
  | [], _ => Or.inl rfl
  | _ :: _, [] => Or.inr rfl
  | a :: as, b :: bs => by
    rw [lexLe_cons_iff, lexLe_cons_iff]
    rcases Nat.lt_trichotomy a.toNat b.toNat with h | h | h
    · exact Or.inl (Or.inl h)
    · rcases lexLe_total as bs with h' | h'
      · exact Or.inl (Or.inr ⟨h, h'⟩)
      · exact Or.inr (Or.inr ⟨h.symm, h'⟩)
    · exact Or.inr (Or.inl h)

theorem lexLe_trans : ∀ x y z : List Char,
    lexLe x y = true → lexLe y z = true → lexLe x z = true
  | [], _, _ => fun _ _ => rfl
  | _ :: _, b :: _, [] => by simp [lexLe]
  | _ :: _, [], _ => by simp [lexLe]
  | a :: as, b :: bs, c :: cs => by
    rw [lexLe_cons_iff, lexLe_cons_iff, lexLe_cons_iff]
    rintro (hab | ⟨hab, h1⟩) (hbc | ⟨hbc, h2⟩)
    · exact Or.inl (Nat.lt_trans hab hbc)
    · exact Or.inl (by omega)
    · exact Or.inl (by omega)
    · exact Or.inr ⟨by omega, lexLe_trans as bs cs h1 h2⟩

/-- Embeds `String.prototype.split(c)`: split on every occurrence of `c`;
always returns at least one (possibly empty) piece. -/
def splitChar (c : Char) : List Char → List (List Char)
  | [] => [[]]
  | x :: xs =>
    let r := splitChar c xs
    if x = c then [] :: r
    else
      match r with
      | h :: t => (x :: h) :: t
      | [] => [[x]]

/-- JS truthiness of an optional string field: `undefined` and `""` are
falsy. -/
def truthyStr : Option String → Bool
  | none => false
  | some s => s ≠ ""

/-! Data model (`MusicLibraryContext.tsx`) -/

/-- One entry of the `files` array of a track: a filename together with an
in-session blob URL (`""` models an absent/empty locator). -/
structure FileEntry where
  filename : String
  blobUrl : String
deriving DecidableEq, Repr

/-- A derived stem layer (`MusicLayer`). -/
structure MusicLayer where
  id : String
  name : String
  icon : String
  volume : Nat
deriving DecidableEq, Repr

/-- A library record (`MusicUrl`).  `addedAt` is the parsed timestamp in
milliseconds (`none` = Invalid Date). -/
structure MusicUrl where
  id : String
  url : String
  title : String
  thumbnail : String
  addedAt : Option Int
  layers : List MusicLayer
  isLocalFile : Bool
  fileDataUrl : Option String
  files : Option (List FileEntry)
  cacheKey : Option String
  processed : Bool
  song_id : Option String
  uid : Option String
deriving DecidableEq, Repr

/-! `generateLayersFromFiles` -/

/-- The fixed stem-name table of `generateLayersFromFiles`: display name and
icon tag for each recognized base name. -/
def stemInfo (basename : String) : Option (String × String) :=
  if basename = "original" then some ("Original Audio", "Music")
  else if basename = "vocals" then some ("Vocals", "Mic")
  else if basename = "vocal" then some ("Vocals", "Mic")
  else if basename = "bass" then some ("Bass", "Volume2")
  else if basename = "drums" then some ("Percussion", "Drum")
  else if basename = "drum" then some ("Percussion", "Drum")
  else if basename = "other" then some ("Other", "Zap")
  else if basename = "instrumental" then some ("Instrumental", "Music")
  else none

/-- The audio extensions accepted by `generateLayersFromFiles`. -/
def audioExts : List (List Char) :=
  ["mp3".toList, "wav".toList, "ogg".toList, "flac".toList, "aac".toList, "m4a".toList]

/-- Embeds `filename.replace(/\\/g,'/').split('/')`, last component. -/
def lastPartOf (filename : String) : List Char :=
  let norm := filename.toList.map (fun c => if c = '\\' then '/' else c)
  (splitChar '/' norm).getLastD []

/-- Embeds `basename.charAt(0).toUpperCase() + basename.slice(1)`. -/
def capitalizeChars : List Char → List Char
  | [] => []
  | c :: r => c.toUpper :: r

/-- Embeds `lastPart.split('.')[0].toLowerCase()` — the base name of a file. -/
def baseNameOf (filename : String) : List Char :=
  lowerChars ((splitChar '.' (lastPartOf filename)).headD [])

/-- Embeds `lastPart.split('.').pop()?.toLowerCase()` — the extension of a file. -/
def extOf (filename : String) : List Char :=
  lowerChars ((splitChar '.' (lastPartOf filename)).getLastD [])

/-- The layer a single file contributes, if any: `none` when the file is
filtered out (empty filename, non-audio extension, or an unrecognized base
name whose filename does not end in `.mp3`/`.wav`).  This packages the body
of the `files.forEach` loop, minus the duplicate-id guard. -/
def fileLayer (f : FileEntry) : Option MusicLayer :=
  if f.filename = "" then none
  else if audioExts.contains (extOf f.filename) then
    match stemInfo ⟨baseNameOf f.filename⟩ with
    | some (nm, ic) => some ⟨⟨baseNameOf f.filename⟩, nm, ic, 100⟩
    | none =>
      if ".mp3".toList.isSuffixOf (lowerChars f.filename.toList)
          || ".wav".toList.isSuffixOf (lowerChars f.filename.toList) then
        some ⟨⟨baseNameOf f.filename⟩, ⟨capitalizeChars (baseNameOf f.filename)⟩,
          "Music2", 100⟩
      else none
  else none

/-- One iteration of the `files.forEach` loop: push the file's layer unless
a layer with the same id was already pushed. -/
def addLayer (acc : List MusicLayer) (f : FileEntry) : List MusicLayer :=
  match fileLayer f with
  | none => acc
  | some l => if acc.any (fun x => x.id = l.id) then acc else acc ++ [l]

/-- The layer value is a function of its id alone: a recognized id carries
the table's display name and icon, an unrecognized one the capitalized ad
hoc form.  Every layer the loop pushes has this shape. -/
def canonicalLayer (b : String) : MusicLayer :=
  match stemInfo b with
  | some (nm, ic) => ⟨b, nm, ic, 100⟩
  | none => ⟨b, ⟨capitalizeChars b.toList⟩, "Music2", 100⟩

/-- The final comparator of `generateLayersFromFiles`: the `"original"`
layer first, the remainder ordered by display name. -/
def layerLe (a b : MusicLayer) : Prop :=
  a.id = "original" ∨ (b.id ≠ "original" ∧ lexLe a.name.toList b.name.toList = true)

instance : DecidableRel layerLe := fun a b => by
  unfold layerLe; infer_instance

instance : IsTotal MusicLayer layerLe := by
  constructor
  intro a b
  by_cases ha : a.id = "original"
  · exact Or.inl (Or.inl ha)
  · by_cases hb : b.id = "original"
    · exact Or.inr (Or.inl hb)
    · rcases lexLe_total a.name.toList b.name.toList with h | h
      · exact Or.inl (Or.inr ⟨hb, h⟩)
      · exact Or.inr (Or.inr ⟨ha, h⟩)

instance : IsTrans MusicLayer layerLe := by
  constructor
  intro a b c hab hbc
  rcases hab with ha | ⟨hb, hab⟩
  · exact Or.inl ha
  · rcases hbc with hb' | ⟨hc, hbc⟩
    · exact absurd hb' hb
    · exact Or.inr ⟨hc, lexLe_trans _ _ _ hab hbc⟩

/-- Embeds `generateLayersFromFiles`: classify every file, deduplicate by layer id,
then sort with `"original"` first and the remainder alphabetical by name. -/
def generateLayersFromFiles (files : List FileEntry) : List MusicLayer :=
  List.insertionSort layerLe (files.foldl addLayer [])

/-! Library reconciliation (`loadLibrary`) -/

/-- Plain alphabetical ordering of layers by display name: the comparator
used on locally rehydrated records (`a.name.localeCompare(b.name)`). -/
def nameLe (a b : MusicLayer) : Prop := lexLe a.name.toList b.name.toList = true

instance : DecidableRel nameLe := fun a b => by
  unfold nameLe; infer_instance

instance : IsTotal MusicLayer nameLe :=
  ⟨fun a b => lexLe_total a.name.toList b.name.toList⟩

instance : IsTrans MusicLayer nameLe :=
  ⟨fun _ _ _ hab hbc => lexLe_trans _ _ _ hab hbc⟩

/-- A record as parsed back from durable local storage (`JSON.parse` of the
`STORAGE_KEY` entry).  `addedAt` is the result of `new Date(url.addedAt)`
(`none` = Invalid Date). -/
structure StoredUrl where
  id : String
  url : String
  title : String
  thumbnail : String
  addedAt : Option Int
  layers : List MusicLayer
  isLocalFile : Bool
  fileDataUrl : Option String
  files : Option (List FileEntry)
  cacheKey : Option String
  processed : Bool
  song_id : Option String
  uid : Option String
deriving DecidableEq, Repr

/-- One file of a `/my-songs` response entry. -/
structure SongFile where
  filename : String
deriving DecidableEq, Repr

/-- One song of a `/my-songs` response.  `created_at` is `none` when the
field is absent/falsy (the code substitutes the current time); otherwise it
carries the parse result of `new Date(song.created_at)`. -/
structure Song where
  song_id : String
  title : String
  created_at : Option (Option Int)
  files : List SongFile
deriving DecidableEq, Repr

/-- The JSON body of a successful `/my-songs` response. -/
structure SongsResponse where
  songs : List Song
  uid : Option String
deriving DecidableEq, Repr

/-- Outcome of the remote fetch inside `loadLibrary`: a parsed body on
`response.ok`, otherwise a non-ok status or a thrown error (both of which
degrade to the local-only path). -/
inductive FetchResult where
  | ok (resp : SongsResponse)
  | failed
deriving DecidableEq, Repr

/-- Rehydrate one stored record (the `parsed.map` step of `loadLibrary`):
regenerate layers from `files` when the stored layer list is empty, then
sort the layers alphabetically by name. -/
def parseStored (s : StoredUrl) : MusicUrl :=
  { id := s.id
    url := s.url
    title := s.title
    thumbnail := s.thumbnail
    addedAt := s.addedAt
    layers :=
      List.insertionSort nameLe
        (if s.layers ≠ [] then s.layers
         else match s.files with
           | some fs => generateLayersFromFiles fs
           | none => [])
    isLocalFile := s.isLocalFile
    fileDataUrl := s.fileDataUrl
    files := s.files
    cacheKey := s.cacheKey
    processed := s.processed
    song_id := s.song_id
    uid := s.uid }

/-- The ownership filter of `loadLibrary`: with an authenticated user keep
records with no `uid` or the session's `uid`; anonymously keep only records
with no `uid`. -/
def filterByUid (user : Option String) (l : List MusicUrl) : List MusicUrl :=
  match user with
  | some u => l.filter (fun x => !truthyStr x.uid || x.uid = some u)
  | none => l.filter (fun x => !truthyStr x.uid)

/-- Embeds `song_id.substring(0, 8)`. -/
def take8 (s : String) : String := ⟨s.toList.take 8⟩

/-- Build the `MusicUrl` for one `/my-songs` entry (the `r2Urls` map).
`now` is the current time substituted for an absent `created_at`. -/
def r2FromSong (now : Int) (respUid : Option String) (s : Song) : MusicUrl :=
  { id := s.song_id
    url := "r2:" ++ s.song_id
    title := if s.title = "" then "Song " ++ take8 s.song_id else s.title
    thumbnail := ""
    addedAt :=
      match s.created_at with
      | none => some now
      | some d => d
    layers := generateLayersFromFiles (s.files.map fun f => ⟨f.filename, ""⟩)
    isLocalFile := false
    fileDataUrl := none
    files := some (s.files.map fun f => ⟨f.filename, ""⟩)
    cacheKey := none
    processed := true
    song_id := some s.song_id
    uid := respUid }

/-- Embeds `merged[index] = { ...merged[index], ...r2 }`: the remote record
overwrites every field it carries; the only field of the record type the
remote literal does not carry is `cacheKey`, which therefore survives from
the local record. -/
def mergeRec (l r : MusicUrl) : MusicUrl :=
  { r with cacheKey := l.cacheKey }

/-- One iteration of the `r2Urls.forEach` merge loop: replace the first
record sharing `song_id` (`findIndex` + assignment), else push at the
end. -/
def mergeStep : List MusicUrl → MusicUrl → List MusicUrl
  | [], r2 => [r2]
  | u :: rest, r2 =>
    if u.song_id = r2.song_id then mergeRec u r2 :: rest
    else u :: mergeStep rest r2

/-- The whole merge loop over the remote list. -/
def mergeRemote (locals r2s : List MusicUrl) : List MusicUrl :=
  r2s.foldl mergeStep locals

/-- The effective sort key of the `addedAt` comparator:
`(getTime() || 0)`, i.e. `NaN` (an unparseable date) collapses to `0`. -/
def keyOf (u : MusicUrl) : Int := u.addedAt.getD 0

/-- The "most recent first" ordering used by every `sorted` computation in
`loadLibrary`. -/
def addedGe (a b : MusicUrl) : Prop := keyOf b ≤ keyOf a

instance : DecidableRel addedGe := fun a b => by
  unfold addedGe; infer_instance

instance : IsTotal MusicUrl addedGe := ⟨fun a b => le_total (keyOf b) (keyOf a)⟩

instance : IsTrans MusicUrl addedGe :=
  ⟨fun _ _ _ hab hbc => le_trans hbc hab⟩

/-- The final descending-by-`addedAt` sort. -/
def sortLib (l : List MusicUrl) : List MusicUrl := List.insertionSort addedGe l

/-- The reconciliation pass of `loadLibrary`, as a function of the stored
cache (`none` = no `STORAGE_KEY` entry), the session identity, the remote
fetch outcome and the current time.  Anonymous sessions never fetch, so the
fetch outcome is ignored on that path. -/
def loadLibrary (stored : Option (List StoredUrl)) (user : Option String)
    (fetch : FetchResult) (now : Int) : List MusicUrl :=
  let localUrls :=
    match stored with
    | none => []
    | some l => filterByUid user (l.map parseStored)
  match user with
  | none => sortLib localUrls
  | some _ =>
    match fetch with
    | .failed => sortLib localUrls
    | .ok resp =>
      sortLib (mergeRemote localUrls (resp.songs.map (r2FromSong now resp.uid)))

/-! Playback engine -/

/-- The playback bookkeeping: the audio pool (keys with a live
`HTMLAudioElement`) plus the `playingKeys` / `pausedKeys` sets.  Positions
and durations are not modelled.  Keys are `trackId ++ "__" ++ filename`. -/
structure PlaybackState where
  pool : List String
  playing : List String
  paused : List String
deriving DecidableEq, Repr

/-- Embeds `Set.add` — a no-op when the key is already present. -/
def insertKey (k : String) (l : List String) : List String :=
  if k ∈ l then l else k :: l

/-- Embeds `Set.delete` / `Map.delete`. -/
def eraseKey (k : String) (l : List String) : List String :=
  l.filter (fun x => x ≠ k)

/-- Source resolution of `handlePlayToggle` for a fresh key, in the
source's preference order: presigned URL (authenticated remote entries
without a blob), in-session blob URL, stable cache-key route; `none` models
the `'No playable source'` throw (and a presigned request made without a
session, which `getPresignedUrl` rejects).  The literals stand in for the
resolved URLs. -/
def resolveSrc (user : Option String) (mu : MusicUrl) (f : FileEntry) : Option String :=
  if truthyStr mu.song_id && f.blobUrl = "" then
    match mu.song_id, user with
    | some sid, some _ => some ("presigned:" ++ sid ++ "/" ++ f.filename)
    | _, _ => none
  else if f.blobUrl ≠ "" then some f.blobUrl
  else
    match mu.cacheKey with
    | some ck => some ("/stems/" ++ ck ++ "/" ++ f.filename)
    | none => none

/-- Embeds `handlePlayToggle`: an existing key is toggled (pause when playing,
resume when paused); a fresh key resolves a source and, on success, gets a
channel and starts playing.  A failed resolution throws and leaves the
state unchanged. -/
def playToggle (user : Option String) (ps : PlaybackState) (key : String)
    (f : FileEntry) (mu : MusicUrl) : PlaybackState :=
  if key ∈ ps.pool then
    if key ∈ ps.playing then
      { ps with playing := eraseKey key ps.playing, paused := insertKey key ps.paused }
    else
      { ps with paused := eraseKey key ps.paused, playing := insertKey key ps.playing }
  else
    match resolveSrc user mu f with
    | none => ps
    | some _ =>
      { ps with pool := insertKey key ps.pool, playing := insertKey key ps.playing }

/-- Embeds `stopAllPlayback`: release every channel and clear both key sets. -/
def stopAllPlayback (_ps : PlaybackState) : PlaybackState :=
  { pool := [], playing := [], paused := [] }

/-- The channel-teardown loop of `removeMusicUrl`: every pooled key
prefixed by `id ++ "__"` is released and dropped from both key sets. -/
def teardownTrack (ps : PlaybackState) (id : String) : PlaybackState :=
  let pre := (id ++ "__").toList
  let victims := ps.pool.filter (fun k => pre.isPrefixOf k.toList)
  { pool := ps.pool.filter (fun k => !pre.isPrefixOf k.toList)
    playing := ps.playing.filter (fun k => !(victims.contains k))
    paused := ps.paused.filter (fun k => !(victims.contains k)) }

/-- The `audio.onended` callback: natural end of stream releases the
channel and clears the playing mark (it fires only on a playing
channel). -/
def onEnded (ps : PlaybackState) (key : String) : PlaybackState :=
  { ps with pool := eraseKey key ps.pool, playing := eraseKey key ps.playing }

/-- One iteration of the `handlePlayAll` loop: skip `original.mp3` and
keys that are already playing, otherwise issue `handlePlayToggle`. -/
def playAllStep (user : Option String) (mu : MusicUrl) (s : PlaybackState)
    (f : FileEntry) : PlaybackState :=
  if f.filename = "original.mp3" then s
  else if (mu.id ++ "__" ++ f.filename) ∈ s.playing then s
  else playToggle user s (mu.id ++ "__" ++ f.filename) f mu

/-- Embeds `handlePlayAll`: play every file of the track except `original.mp3`,
skipping keys that are already playing. -/
def handlePlayAll (user : Option String) (ps : PlaybackState) (mu : MusicUrl) :
    PlaybackState :=
  match mu.files with
  | none => ps
  | some fs => fs.foldl (playAllStep user mu) ps

/-- The playback bookkeeping invariant: the playing and paused sets are
disjoint, and both only mention pooled keys. -/
def PlaybackInv (ps : PlaybackState) : Prop :=
  (∀ k, k ∈ ps.playing → k ∉ ps.paused) ∧
  (∀ k, k ∈ ps.playing → k ∈ ps.pool) ∧
  (∀ k, k ∈ ps.paused → k ∈ ps.pool)

/-! Track removal (`removeMusicUrl`) -/

/-- The observable side effects of `removeMusicUrl`: blob-URL revocations
(local) and the best-effort backend `DELETE /songs/{songId}` request. -/
inductive RemovalEffect where
  | revoke (url : String)
  | deleteSong (sid : String)
deriving DecidableEq, Repr

/-- Embeds `removeMusicUrl`: optimistic removal from the visible list, blob-URL
revocation, a best-effort authenticated DELETE when the record carries a
`song_id`, and teardown of the track's channels.  `deleteFails` is the
outcome of that DELETE request; the surrounding `catch` swallows it, so it
influences nothing. -/
def removeMusicUrl (urls : List MusicUrl) (user : Option String)
    (ps : PlaybackState) (id : String) (_deleteFails : Bool) :
    List MusicUrl × PlaybackState × List RemovalEffect :=
  match urls.find? (fun u => u.id = id) with
  | none => (urls, ps, [])
  | some item =>
    let urls2 := urls.filter (fun u => u.id ≠ id)
    let revokes :=
      match item.files with
      | none => []
      | some fs =>
        fs.filterMap (fun f =>
          if f.blobUrl ≠ "" then some (RemovalEffect.revoke f.blobUrl) else none)
    let deletes :=
      if truthyStr item.song_id ∧ user ≠ none then
        match item.song_id with
        | some sid => [RemovalEffect.deleteSong sid]
        | none => []
      else []
    (urls2, teardownTrack ps id, revokes ++ deletes)

/-! Voice pipeline state machine (`SpeechControl.tsx`) -/

/-- The tri-state connection display. -/
inductive ConnState where
  | offline
  | connecting
  | online
deriving DecidableEq, Repr

/-- The voice-session resources: connection state, the `isListeningRef`
flag, the media recorder (`some b`: present, `b` = actively recording),
whether the microphone stream tracks are live, the socket, the armed
inactivity timer and the status line. -/
structure VoiceState where
  conn : ConnState
  isListening : Bool
  recorder : Option Bool
  micLive : Bool
  socket : Bool
  timerArmed : Bool
  status : Option String
deriving DecidableEq, Repr

/-- Embeds `stopListening`: go offline, stop the recorder and release the
microphone tracks (the tracks are stopped only when the recorder is present
and not inactive), close the socket and clear the inactivity timer;
idempotent. -/
def stopListening (s : VoiceState) : VoiceState :=
  { conn := .offline
    isListening := false
    recorder := none
    micLive :=
      match s.recorder with
      | some true => false
      | _ => s.micLive
    socket := false
    timerArmed := false
    status := none }

/-- The inactivity window armed by `resetInactivityTimeout`
(milliseconds). -/
def inactivityTimeoutMs : Nat := 10000

/-- Embeds `resetInactivityTimeout`: re-arm the timer for `inactivityTimeoutMs`. -/
def resetInactivityTimeout (s : VoiceState) : VoiceState :=
  { s with timerArmed := true }

/-- The timer callback: once `inactivityTimeoutMs` elapses with no reset
(no transcript received), stop the session if it is still listening. -/
def onInactivityTimeout (s : VoiceState) : VoiceState :=
  if s.isListening then stopListening s else s

/-! Command dispatcher (`processCommand`) -/

/-- The externally observable actions a dispatched command performs. -/
inductive Effect where
  | navigate (path : String)
  | navigateBack
  | playAll (mu : MusicUrl)
  | stopAll
  | clearLib
  | reload
  | logout
  | stopVoice
  | openFilePicker
  | triggerSplit
  | viewTos
  | selectStem (stemId : String)
  | playToggle (key : String) (f : FileEntry) (mu : MusicUrl)
deriving DecidableEq, Repr

/-- Embeds `text.match(/select (.+)/i)`: the capture after the leftmost occurrence
of the pattern followed by at least one character. -/
def captureAfter (pat : List Char) : List Char → Option (List Char)
  | [] => none
  | c :: rest =>
    if pat.isPrefixOf (c :: rest) && !((c :: rest).drop pat.length).isEmpty then
      some ((c :: rest).drop pat.length)
    else captureAfter pat rest

/-- Try the `" for "` / `" from "` separator at this position; returns the
text after the separator. -/
def sepAfter (l : List Char) : Option (List Char) :=
  if " for ".toList.isPrefixOf l then some (l.drop 5)
  else if " from ".toList.isPrefixOf l then some (l.drop 6)
  else none

/-- Greedy split of `(.+) (?:for|from) (.+)`: the first group is maximal,
i.e. the separator is taken at its rightmost admissible position. -/
def greedySplit : List Char → Option (List Char × List Char)
  | [] => none
  | c :: rest =>
    match greedySplit rest with
    | some (g1, g2) => some (c :: g1, g2)
    | none =>
      match sepAfter rest with
      | some g2 => if g2.isEmpty then none else some ([c], g2)
      | none => none

/-- Embeds `text.match(/play (.+) (?:for|from) (.+)/i)`: leftmost occurrence of
`"play "` whose remainder admits a greedy two-group split. -/
def playStemMatch : List Char → Option (List Char × List Char)
  | [] => none
  | c :: rest =>
    if "play ".toList.isPrefixOf (c :: rest) then
      match greedySplit ((c :: rest).drop 5) with
      | some p => some p
      | none => playStemMatch rest
    else playStemMatch rest

/-- The alias-normalization chain of the `select <stem>` branch. -/
def normalizeStemId (cap : List Char) : List Char :=
  let s0 := trimChars cap
  let s1 :=
    if containsStr s0 "drum".toList || containsStr s0 "percussion".toList then
      "percussion".toList else s0
  let s2 := if containsStr s1 "vocal".toList then "vocals".toList else s1
  let s3 :=
    if containsStr s2 "instrumental".toList || containsStr s2 "instrument".toList then
      "instrumental".toList else s2
  if containsStr s3 "original".toList || containsStr s3 "source".toList then
    "original audio".toList else s3

/-- The fixed stem vocabulary accepted by `select <stem>`. -/
def validStems : List (List Char) :=
  ["vocals".toList, "percussion".toList, "bass".toList, "other".toList,
    "instrumental".toList, "original audio".toList]

/-- The targeted stem playback branch (`play <stem> for|from <song>`):
find the first track whose title contains the song fragment, within it the
first layer matching the stem fragment, then the file whose base name
matches the layer id; a missing song, layer or file produces a status only
(no effect) but still counts as matched. -/
def playStemEffects (urls : List MusicUrl) (stemName songTitle : List Char) :
    List Effect :=
  match urls.find? (fun u => containsStr (lowerChars u.title.toList) songTitle) with
  | none => []
  | some song =>
    match song.layers.find? (fun l =>
        containsStr (lowerChars l.name.toList) stemName
        || containsStr (lowerChars l.id.toList) stemName
        || (stemName = "original audio".toList && l.id = "original")
        || (stemName = "percussion".toList && l.id = "drums")) with
    | none => []
    | some layer =>
      match (song.files.getD []).find? (fun file =>
          baseNameOf file.filename = lowerChars layer.id.toList) with
      | none => []
      | some f => [.playToggle (song.id ++ "__" ++ f.filename) f song]

/-- The ordered first-match-wins command grammar of `processCommand`:
lower-case and trim the transcript, then try each pattern in source order.
Returns whether any pattern matched together with the effects the matched
branch performs (an empty effect list models a status-only branch). -/
def processCommand (urls : List MusicUrl) (transcript : String) :
    Bool × List Effect :=
  let text := trimChars (lowerChars transcript.toList)
  if containsStr text "go to profile".toList then (true, [.navigate "/profile"])
  else if containsStr text "go home".toList || containsStr text "go to home".toList then
    (true, [.navigate "/"])
  else if containsStr text "go back".toList || containsStr text "back to app".toList then
    (true, [.navigateBack])
  else if containsStr text "go to pricing".toList || containsStr text "view pricing".toList
      || containsStr text "show pricing".toList then
    (true, [.navigate "/pricing"])
  else if containsStr text "view profile".toList || containsStr text "show profile".toList then
    (true, [.navigate "/profile"])
  else if containsStr text "play all".toList || containsStr text "play music".toList then
    (true, match urls with | [] => [] | u :: _ => [.playAll u])
  else if containsStr text "stop music".toList || containsStr text "stop all".toList then
    (true, [.stopAll])
  else if containsStr text "clear library".toList then (true, [.clearLib])
  else if containsStr text "refresh page".toList || containsStr text "refresh".toList then
    (true, [.reload])
  else if containsStr text "logout".toList || containsStr text "sign out".toList then
    (true, [.logout])
  else if "done".toList.isSuffixOf text || text = "stop listening".toList
      || text = "turn off".toList then
    (true, [.stopVoice])
  else if containsStr text "upload file".toList || containsStr text "upload music".toList then
    (true, [.openFilePicker])
  else if containsStr text "split song".toList || containsStr text "split music".toList
      || containsStr text "split".toList then
    (true, [.triggerSplit])
  else if containsStr text "view tos".toList || containsStr text "view terms".toList
      || containsStr text "show terms".toList then
    (true, [.viewTos])
  else if containsStr text "select all stems".toList || containsStr text "select all".toList then
    (true, [.selectStem "all"])
  else if containsStr text "deselect all stems".toList || containsStr text "deselect all".toList
      || containsStr text "clear stems".toList then
    (true, [.selectStem "none"])
  else
    match captureAfter "select ".toList text with
    | some cap =>
      let sid := normalizeStemId cap
      (true, if validStems.contains sid then [.selectStem ⟨sid⟩] else [])
    | none =>
      match playStemMatch text with
      | some (g1, g2) => (true, playStemEffects urls (trimChars g1) (trimChars g2))
      | none => (false, [])

/-! Helper lemmas -/

theorem mem_insertKey {a k : String} {l : List String} :
    a ∈ insertKey k l ↔ a = k ∨ a ∈ l := by
  unfold insertKey
  split
  · rename_i h
    constructor
    · exact Or.inr
    · rintro (rfl | h') <;> assumption
  · simp [List.mem_cons]

theorem mem_eraseKey {a k : String} {l : List String} :
    a ∈ eraseKey k l ↔ a ∈ l ∧ a ≠ k := by
  unfold eraseKey
  simp

theorem mem_mergeStep {m r2 : MusicUrl} :
    ∀ {acc : List MusicUrl}, m ∈ mergeStep acc r2 →
      (∃ u ∈ acc, m = mergeRec u r2) ∨ m ∈ acc ∨ m = r2
  | [], h => by
    simp only [mergeStep, List.mem_singleton] at h
    exact Or.inr (Or.inr h)
  | u :: rest, h => by
    simp only [mergeStep] at h
    split at h
    · rcases List.mem_cons.mp h with rfl | h'
      · exact Or.inl ⟨u, List.mem_cons_self u rest, rfl⟩
      · exact Or.inr (Or.inl (List.mem_cons_of_mem u h'))
    · rcases List.mem_cons.mp h with rfl | h'
      · exact Or.inr (Or.inl (List.mem_cons_self m rest))
      · rcases mem_mergeStep h' with ⟨v, hv, rfl⟩ | h'' | rfl
        · exact Or.inl ⟨v, List.mem_cons_of_mem u hv, rfl⟩
        · exact Or.inr (Or.inl (List.mem_cons_of_mem u h''))
        · exact Or.inr (Or.inr rfl)

theorem uid_mergeRec (l r : MusicUrl) : (mergeRec l r).uid = r.uid := rfl

theorem mergeRemote_uid (P : Option String → Prop) :
    ∀ (rs locals : List MusicUrl), (∀ u ∈ locals, P u.uid) → (∀ r ∈ rs, P r.uid) →
      ∀ m ∈ mergeRemote locals rs, P m.uid
  | [], locals, hloc, _, m, hm => hloc m hm
  | r :: rs', locals, hloc, hrs, m, hm => by
    have hstep : ∀ x ∈ mergeStep locals r, P x.uid := by
      intro x hx
      rcases mem_mergeStep hx with ⟨u, _, rfl⟩ | hx' | rfl
      · exact hrs r (List.mem_cons_self r rs')
      · exact hloc x hx'
      · exact hrs x (List.mem_cons_self x rs')
    exact mergeRemote_uid P rs' (mergeStep locals r) hstep
      (fun x hx => hrs x (List.mem_cons_of_mem r hx)) m hm

theorem mem_sortLib {m : MusicUrl} {l : List MusicUrl} :
    m ∈ sortLib l ↔ m ∈ l := List.mem_insertionSort addedGe

theorem sortLib_pairwise (l : List MusicUrl) : (sortLib l).Pairwise addedGe :=
  List.sorted_insertionSort addedGe l

theorem fileLayer_canonical {f : FileEntry} {l : MusicLayer}
    (h : fileLayer f = some l) : l = canonicalLayer l.id := by
  unfold fileLayer at h
  by_cases h0 : f.filename = ""
  · rw [if_pos h0] at h
    cases h
  · rw [if_neg h0] at h
    by_cases h1 : audioExts.contains (extOf f.filename) = true
    · rw [if_pos h1] at h
      cases hsi : stemInfo ⟨baseNameOf f.filename⟩ with
      | some p =>
        obtain ⟨nm, ic⟩ := p
        rw [hsi] at h
        cases h
        simp [canonicalLayer, hsi]
      | none =>
        rw [hsi] at h
        by_cases h2 : (".mp3".toList.isSuffixOf (lowerChars f.filename.toList)
            || ".wav".toList.isSuffixOf (lowerChars f.filename.toList)) = true
        · rw [if_pos h2] at h
          cases h
          simp [canonicalLayer, hsi]
        · rw [if_neg h2] at h
          cases h
    · rw [if_neg h1] at h
      cases h

theorem mem_addLayer {acc : List MusicLayer} {f : FileEntry} {l : MusicLayer}
    (hacc : ∀ x ∈ acc, x = canonicalLayer x.id) :
    l ∈ addLayer acc f ↔ l ∈ acc ∨ fileLayer f = some l := by
  cases hfl : fileLayer f with
  | none => simp [addLayer, hfl]
  | some la =>
    simp only [addLayer, hfl]
    by_cases hany : (acc.any fun x => x.id = la.id) = true
    · rw [if_pos hany]
      constructor
      · exact Or.inl
      · rintro (h | h)
        · exact h
        · have hla : la = l := by injection h
          rcases List.any_eq_true.mp hany with ⟨x, hx, hid⟩
          rw [decide_eq_true_eq] at hid
          have h1 := fileLayer_canonical hfl
          have h2 := hacc x hx
          rw [hid] at h2
          have hxl : x = l := by rw [h2, ← h1, hla]
          exact hxl ▸ hx
    · rw [if_neg hany, List.mem_append, List.mem_singleton]
      constructor
      · rintro (h | rfl)
        · exact Or.inl h
        · exact Or.inr rfl
      · rintro (h | h)
        · exact Or.inl h
        · have hla : la = l := by injection h
          exact Or.inr hla.symm

theorem addLayer_canonical {acc : List MusicLayer} {f : FileEntry}
    (hacc : ∀ x ∈ acc, x = canonicalLayer x.id) :
    ∀ x ∈ addLayer acc f, x = canonicalLayer x.id := by
  intro x hx
  rcases (mem_addLayer hacc).mp hx with h | h
  · exact hacc x h
  · exact fileLayer_canonical h

theorem mem_foldl_addLayer :
    ∀ (files : List FileEntry) (acc : List MusicLayer),
      (∀ x ∈ acc, x = canonicalLayer x.id) →
      ∀ l, l ∈ files.foldl addLayer acc ↔ l ∈ acc ∨ ∃ f ∈ files, fileLayer f = some l
  | [], acc, _, l => by simp
  | f :: fs, acc, hacc, l => by
    rw [List.foldl_cons,
      mem_foldl_addLayer fs (addLayer acc f) (addLayer_canonical hacc) l,
      mem_addLayer hacc]
    constructor
    · rintro ((h | h) | ⟨f', hf', hl'⟩)
      · exact Or.inl h
      · exact Or.inr ⟨f, List.mem_cons_self f fs, h⟩
      · exact Or.inr ⟨f', List.mem_cons_of_mem f hf', hl'⟩
    · rintro (h | ⟨f', hf', hl'⟩)
      · exact Or.inl (Or.inl h)
      · rcases List.mem_cons.mp hf' with rfl | hf''
        · exact Or.inl (Or.inr hl')
        · exact Or.inr ⟨f', hf'', hl'⟩

theorem addLayer_nodup {acc : List MusicLayer} {f : FileEntry}
    (h : (acc.map (fun x => x.id)).Nodup) :
    ((addLayer acc f).map (fun x => x.id)).Nodup := by
  cases hfl : fileLayer f with
  | none => simpa [addLayer, hfl] using h
  | some la =>
    simp only [addLayer, hfl]
    by_cases hany : (acc.any fun x => x.id = la.id) = true
    · rw [if_pos hany]
      exact h
    · rw [if_neg hany, List.map_append]
      simp only [List.any_eq_true, decide_eq_true_eq, not_exists, not_and] at hany
      rw [List.nodup_append]
      refine ⟨h, List.nodup_singleton _, ?_⟩
      intro a ha hb
      rcases List.mem_map.mp ha with ⟨x, hx, rfl⟩
      rw [List.map_singleton, List.mem_singleton] at hb
      exact hany x hx hb

theorem foldl_addLayer_nodup :
    ∀ (files : List FileEntry) (acc : List MusicLayer),
      (acc.map (fun x => x.id)).Nodup →
      ((files.foldl addLayer acc).map (fun x => x.id)).Nodup
  | [], _, h => h
  | f :: fs, acc, h =>
    foldl_addLayer_nodup fs (addLayer acc f) (addLayer_nodup h)

theorem original_first {L : List MusicLayer} (hpw : L.Pairwise layerLe)
    (hnd : (L.map (fun x => x.id)).Nodup) :
    ∀ o ∈ L, o.id = "original" → L.head? = some o := by
  intro o ho hid
  cases L with
  | nil => cases ho
  | cons x rest =>
    rcases List.mem_cons.mp ho with rfl | ho'
    · rfl
    · have hxo : layerLe x o := (List.pairwise_cons.mp hpw).1 o ho'
      rcases hxo with hx | ⟨hno, _⟩
      · exfalso
        have hmem : o.id ∈ rest.map (fun x => x.id) := List.mem_map.mpr ⟨o, ho', rfl⟩
        have hx_notin : x.id ∉ rest.map (fun x => x.id) := by
          rw [List.map_cons, List.nodup_cons] at hnd
          exact hnd.1
        rw [hx, ← hid] at hx_notin
        exact hx_notin hmem
      · exact absurd hid hno

/-! Claims -/

/-- C2. The utterances "deselect all stems" and "deselect all" are
captured by the earlier "select all stems"/"select all" substring pattern
(they contain it), so the dispatcher emits the select-all action with stem
target `"all"` instead of the deselect action `"none"` that the grammar —
and the code's own unreachable deselect branch — prescribe; only
"clear stems" reaches the deselect branch. -/
theorem deselect_utterances_dispatch_select_all :
    processCommand [] "deselect all stems" = (true, [.selectStem "all"]) ∧
    processCommand [] "deselect all" = (true, [.selectStem "all"]) ∧
    processCommand [] "clear stems" = (true, [.selectStem "none"]) := by
  refine ⟨?_, ?_, ?_⟩ <;> decide

/-- C5 counterexample. `guitar.ogg` has an audio extension and a base
name outside the stem table, yet `generateLayersFromFiles` yields no layer
for it: the ad hoc branch only accepts filenames ending in `.mp3`/`.wav`,
refuting "an ad hoc layer for every audio-extensioned file whose base name
is not in the table". -/
theorem adhoc_layer_missing_for_ogg :
    generateLayersFromFiles [⟨"guitar.ogg", ""⟩] = [] ∧
    audioExts.contains "ogg".toList = true ∧
    stemInfo "guitar" = none := by
  refine ⟨?_, ?_, ?_⟩ <;> decide

/-- C1 counterexample. A cached record holding an in-session blob URL
for `vocals.mp3` is merged with the remote record of the same `song_id`:
the spread `{ ...local, ...r2 }` replaces the whole `files` array with the
remote one (whose locators are empty), so the blob URL is discarded — only
the top-level `cacheKey` survives from the local record. -/
theorem merge_discards_local_blob_url :
    (loadLibrary
        (some [{ id := "local-1", url := "file:song.mp3", title := "My Song",
                 thumbnail := "", addedAt := some 1000, layers := [],
                 isLocalFile := true, fileDataUrl := none,
                 files := some [⟨"vocals.mp3", "blob:abc"⟩], cacheKey := some "ck-1",
                 processed := true, song_id := some "s1", uid := some "u1" }])
        (some "u1")
        (.ok { songs := [{ song_id := "s1", title := "My Song",
                           created_at := some (some 2000),
                           files := [⟨"vocals.mp3"⟩] }], uid := some "u1" })
        0).map (fun u => (u.files, u.cacheKey))
      = [(some [⟨"vocals.mp3", ""⟩], some "ck-1")] := by
  decide

/-- C1 amended. In the merge loop, every produced record is an
untouched local record, a remote record appended verbatim, or the
field-spread merge of the first local record sharing the remote identity;
that merged record takes every field the remote literal carries — `files`
included — from the remote record, and retains only the local `cacheKey`
(the one field of the record type absent from the remote literal). -/
theorem merge_remote_authoritative_keeps_cache_key :
    (∀ (locals : List MusicUrl) (r2 m : MusicUrl), m ∈ mergeStep locals r2 →
      (∃ l ∈ locals, m = mergeRec l r2) ∨ m ∈ locals ∨ m = r2) ∧
    (∀ l r : MusicUrl, mergeRec l r =
      { id := r.id, url := r.url, title := r.title, thumbnail := r.thumbnail,
        addedAt := r.addedAt, layers := r.layers, isLocalFile := r.isLocalFile,
        fileDataUrl := r.fileDataUrl, files := r.files, cacheKey := l.cacheKey,
        processed := r.processed, song_id := r.song_id, uid := r.uid }) := by
  constructor
  · intro locals r2 m hm
    exact mem_mergeStep hm
  · intro l r
    rfl

/-- Witness for the C1 amended theorem at a concrete merged pair. -/
theorem merge_remote_authoritative_keeps_cache_key_witness :
    (∃ l ∈ [(⟨"l", "", "", "", none, [], false, none, none, some "ck", false,
          some "s", none⟩ : MusicUrl)],
        (⟨"r", "", "", "", none, [], false, none, none, some "ck", false,
          some "s", none⟩ : MusicUrl)
          = mergeRec l ⟨"r", "", "", "", none, [], false, none, none, none, false,
              some "s", none⟩)
      ∨ (⟨"r", "", "", "", none, [], false, none, none, some "ck", false,
          some "s", none⟩ : MusicUrl)
          ∈ [(⟨"l", "", "", "", none, [], false, none, none, some "ck", false,
              some "s", none⟩ : MusicUrl)]
      ∨ (⟨"r", "", "", "", none, [], false, none, none, some "ck", false,
          some "s", none⟩ : MusicUrl)
          = ⟨"r", "", "", "", none, [], false, none, none, none, false,
              some "s", none⟩ :=
  merge_remote_authoritative_keeps_cache_key.1
    [⟨"l", "", "", "", none, [], false, none, none, some "ck", false, some "s", none⟩]
    ⟨"r", "", "", "", none, [], false, none, none, none, false, some "s", none⟩
    ⟨"r", "", "", "", none, [], false, none, none, some "ck", false, some "s", none⟩
    (by decide)

/-- C3 counterexample. With a cached entry whose timestamp fails to
parse (effective key `0`) and one with a valid pre-epoch timestamp
(key `-5`), reconciliation sorts the unparseable entry *first* (most
recent), not as the oldest: the comparator collapses `NaN` to `0`, which
only sorts last among nonnegative keys. -/
theorem unparseable_timestamp_not_oldest :
    ((loadLibrary
        (some [{ id := "b", url := "", title := "B", thumbnail := "",
                 addedAt := some (-5), layers := [], isLocalFile := true,
                 fileDataUrl := none, files := none, cacheKey := none,
                 processed := false, song_id := none, uid := none },
               { id := "a", url := "", title := "A", thumbnail := "",
                 addedAt := none, layers := [], isLocalFile := true,
                 fileDataUrl := none, files := none, cacheKey := none,
                 processed := false, song_id := none, uid := none }])
        none .failed 0).map (fun u => (u.id, u.addedAt))
      = [("a", none), ("b", some (-5))]) ∧
    ¬ (loadLibrary
        (some [{ id := "b", url := "", title := "B", thumbnail := "",
                 addedAt := some (-5), layers := [], isLocalFile := true,
                 fileDataUrl := none, files := none, cacheKey := none,
                 processed := false, song_id := none, uid := none },
               { id := "a", url := "", title := "A", thumbnail := "",
                 addedAt := none, layers := [], isLocalFile := true,
                 fileDataUrl := none, files := none, cacheKey := none,
                 processed := false, song_id := none, uid := none }])
        none .failed 0).Pairwise
      (fun a b => a.addedAt = none → b.addedAt = none) := by
  constructor
  · decide
  · decide

/-- C3 amended. Every list produced by reconciliation — remote fetch
succeeded, failed, or session unauthenticated — is sorted descending by the
effective `addedAt` key, where an unparseable timestamp is normalized to
`0` (the epoch); consequently an entry with an unparseable timestamp sorts
as the oldest relative to every entry with a positive timestamp (every
entry below it has effective key at most `0`). -/
theorem reconciled_list_sorted_descending (stored : Option (List StoredUrl))
    (user : Option String) (fetch : FetchResult) (now : Int) :
    (loadLibrary stored user fetch now).Pairwise addedGe ∧
    (loadLibrary stored user fetch now).Pairwise
      (fun a b => a.addedAt = none → keyOf b ≤ 0) := by
  have hsorted : (loadLibrary stored user fetch now).Pairwise addedGe := by
    unfold loadLibrary
    cases user with
    | none => exact sortLib_pairwise _
    | some u =>
      cases fetch with
      | ok resp => exact sortLib_pairwise _
      | failed => exact sortLib_pairwise _
  refine ⟨hsorted, hsorted.imp ?_⟩
  intro a b hab hnone
  have : keyOf a = 0 := by simp [keyOf, hnone]
  calc keyOf b ≤ keyOf a := hab
    _ = 0 := this

/-- Witness for the C3 amended theorem at a concrete two-entry cache. -/
theorem reconciled_list_sorted_descending_witness :
    (loadLibrary
      (some [{ id := "a", url := "", title := "A", thumbnail := "",
               addedAt := some 5, layers := [], isLocalFile := true,
               fileDataUrl := none, files := none, cacheKey := none,
               processed := false, song_id := none, uid := none },
             { id := "b", url := "", title := "B", thumbnail := "",
               addedAt := some 9, layers := [], isLocalFile := true,
               fileDataUrl := none, files := none, cacheKey := none,
               processed := false, song_id := none, uid := none }])
      none .failed 0).Pairwise addedGe :=
  (reconciled_list_sorted_descending _ none .failed 0).1

/-- C4. Ownership invariant of reconciliation: an anonymous session's
visible list contains only records without an owner identity; and in a
session authenticated as `me` — given the `/my-songs` interface contract
that the response `uid` is the requester's — every visible record's owner
identity is unset or `me`, so a cached record owned by a different user is
never visible. -/
theorem ownership_invariant :
    (∀ (stored : Option (List StoredUrl)) (fetch : FetchResult) (now : Int),
      ∀ u ∈ loadLibrary stored none fetch now, truthyStr u.uid = false) ∧
    (∀ (stored : Option (List StoredUrl)) (me : String) (fetch : FetchResult) (now : Int),
      (∀ resp, fetch = .ok resp → resp.uid = some me) →
      ∀ u ∈ loadLibrary stored (some me) fetch now,
        truthyStr u.uid = false ∨ u.uid = some me) := by
  constructor
  · intro stored fetch now u hu
    unfold loadLibrary at hu
    rw [mem_sortLib] at hu
    cases stored with
    | none => simp at hu
    | some l =>
      simp only [filterByUid, List.mem_filter] at hu
      simpa using hu.2
  · intro stored me fetch now hresp u hu
    have hloc : ∀ x ∈ (match stored with
        | none => ([] : List MusicUrl)
        | some l => filterByUid (some me) (l.map parseStored)),
        truthyStr x.uid = false ∨ x.uid = some me := by
      intro x hx
      cases stored with
      | none => simp at hx
      | some l =>
        simp only [filterByUid, List.mem_filter, Bool.or_eq_true, Bool.not_eq_true',
          decide_eq_true_eq] at hx
        rcases hx.2 with h | h
        · exact Or.inl h
        · exact Or.inr h
    unfold loadLibrary at hu
    cases hfetch : fetch with
    | failed =>
      subst hfetch
      rw [mem_sortLib] at hu
      exact hloc u hu
    | ok resp =>
      subst hfetch
      rw [mem_sortLib] at hu
      have huid := hresp resp rfl
      refine mergeRemote_uid (fun o => truthyStr o = false ∨ o = some me) _ _
        hloc ?_ u hu
      intro r hr
      rcases List.mem_map.mp hr with ⟨s, _, rfl⟩
      exact Or.inr (by simp [r2FromSong, huid])

/-- Witness for the C4 ownership theorem: a foreign-owned cached record is
filtered out of a session authenticated as `"me"`. -/
theorem ownership_invariant_witness :
    (∀ resp, FetchResult.failed = FetchResult.ok resp → resp.uid = some "me") ∧
    (∀ u ∈ loadLibrary
        (some [{ id := "x", url := "", title := "X", thumbnail := "",
                 addedAt := some 1, layers := [], isLocalFile := true,
                 fileDataUrl := none, files := none, cacheKey := none,
                 processed := false, song_id := none, uid := some "other" }])
        (some "me") .failed 0,
      truthyStr u.uid = false ∨ u.uid = some "me") :=
  ⟨(fun _ h => by cases h),
    ownership_invariant.2 _ "me" .failed 0 (fun _ h => by cases h)⟩

/-- C5 amended. `generateLayersFromFiles` yields exactly the layers
classified by `fileLayer` — one per distinct base name; files without an
audio extension contribute nothing, recognized base names get the table's
layer, and unrecognized base names get an ad hoc layer **only when the
filename ends in `.mp3`/`.wav`** (other audio extensions yield no layer).
Layer ids are pairwise distinct and the result is sorted with the
`"original"` layer first and the remainder alphabetical by display name. -/
theorem generate_layers_characterization (files : List FileEntry) :
    (∀ l, l ∈ generateLayersFromFiles files ↔ ∃ f ∈ files, fileLayer f = some l) ∧
    ((generateLayersFromFiles files).map (fun x => x.id)).Nodup ∧
    (generateLayersFromFiles files).Pairwise layerLe ∧
    (∀ o ∈ generateLayersFromFiles files, o.id = "original" →
      (generateLayersFromFiles files).head? = some o) := by
  have hperm : (generateLayersFromFiles files).Perm (files.foldl addLayer []) :=
    List.perm_insertionSort layerLe _
  have hmem : ∀ l, l ∈ generateLayersFromFiles files ↔
      ∃ f ∈ files, fileLayer f = some l := by
    intro l
    rw [generateLayersFromFiles, List.mem_insertionSort,
      mem_foldl_addLayer files [] (by simp) l]
    simp
  have hnd : ((generateLayersFromFiles files).map (fun x => x.id)).Nodup := by
    have h1 := foldl_addLayer_nodup files [] (by simp)
    exact ((hperm.map _).nodup_iff).mpr h1
  have hpw : (generateLayersFromFiles files).Pairwise layerLe :=
    List.sorted_insertionSort layerLe _
  exact ⟨hmem, hnd, hpw, original_first hpw hnd⟩

/-- Witness for the C5 amended theorem: on
`[vocals.mp3, original.wav]` the vocals layer is derived and the original
layer is first. -/
theorem generate_layers_characterization_witness :
    (⟨"vocals", "Vocals", "Mic", 100⟩ : MusicLayer) ∈
      generateLayersFromFiles [⟨"vocals.mp3", ""⟩, ⟨"original.wav", ""⟩] ∧
    (generateLayersFromFiles [⟨"vocals.mp3", ""⟩, ⟨"original.wav", ""⟩]).head? =
      some ⟨"original", "Original Audio", "Music", 100⟩ :=
  ⟨((generate_layers_characterization _).1 _).mpr
      ⟨⟨"vocals.mp3", ""⟩, by decide, by decide⟩,
    (generate_layers_characterization _).2.2.2 _ (by decide) (by decide)⟩

/-- C7. Toggle semantics of `handlePlayToggle` for one key: from a
state that has never seen the key (and a resolvable source), the first call
creates the channel and starts it playing; a second call pauses it; a third
resumes it; and in general, any call on an existing key pauses it when
playing and resumes it when paused. -/
theorem play_toggle_cycle (user : Option String) (ps : PlaybackState)
    (key : String) (f : FileEntry) (mu : MusicUrl)
    (h1 : key ∉ ps.pool) (h2 : key ∉ ps.playing) (h3 : key ∉ ps.paused)
    (hres : (resolveSrc user mu f).isSome = true) :
    (key ∈ (playToggle user ps key f mu).pool ∧
      key ∈ (playToggle user ps key f mu).playing ∧
      key ∉ (playToggle user ps key f mu).paused) ∧
    (key ∈ (playToggle user (playToggle user ps key f mu) key f mu).pool ∧
      key ∉ (playToggle user (playToggle user ps key f mu) key f mu).playing ∧
      key ∈ (playToggle user (playToggle user ps key f mu) key f mu).paused) ∧
    (key ∈ (playToggle user (playToggle user (playToggle user ps key f mu) key f mu)
        key f mu).pool ∧
      key ∈ (playToggle user (playToggle user (playToggle user ps key f mu) key f mu)
        key f mu).playing ∧
      key ∉ (playToggle user (playToggle user (playToggle user ps key f mu) key f mu)
        key f mu).paused) ∧
    (∀ t : PlaybackState, key ∈ t.pool →
      (key ∈ t.playing →
        key ∉ (playToggle user t key f mu).playing ∧
        key ∈ (playToggle user t key f mu).paused) ∧
      (key ∉ t.playing →
        key ∈ (playToggle user t key f mu).playing ∧
        key ∉ (playToggle user t key f mu).paused)) := by
  obtain ⟨src, hsrc⟩ := Option.isSome_iff_exists.mp hres
  have hstep : ∀ t : PlaybackState, key ∈ t.pool →
      (key ∈ t.playing →
        key ∉ (playToggle user t key f mu).playing ∧
        key ∈ (playToggle user t key f mu).paused) ∧
      (key ∉ t.playing →
        key ∈ (playToggle user t key f mu).playing ∧
        key ∉ (playToggle user t key f mu).paused) := by
    intro t hpool
    constructor
    · intro hplay
      unfold playToggle
      rw [if_pos hpool, if_pos hplay]
      constructor
      · simp [mem_eraseKey]
      · simp [mem_insertKey]
    · intro hplay
      unfold playToggle
      rw [if_pos hpool, if_neg hplay]
      constructor
      · simp [mem_insertKey]
      · simp [mem_eraseKey]
  have hs1 : playToggle user ps key f mu =
      { ps with pool := insertKey key ps.pool, playing := insertKey key ps.playing } := by
    unfold playToggle
    rw [if_neg h1, hsrc]
  have hc1 : key ∈ (playToggle user ps key f mu).pool ∧
      key ∈ (playToggle user ps key f mu).playing ∧
      key ∉ (playToggle user ps key f mu).paused := by
    rw [hs1]
    refine ⟨by simp [mem_insertKey], by simp [mem_insertKey], h3⟩
  have hpoolmem : ∀ t : PlaybackState, key ∈ t.pool →
      key ∈ (playToggle user t key f mu).pool := by
    intro t hp
    unfold playToggle
    rw [if_pos hp]
    by_cases hpl : key ∈ t.playing
    · rw [if_pos hpl]
      exact hp
    · rw [if_neg hpl]
      exact hp
  have hc2 := (hstep _ hc1.1).1 hc1.2.1
  have hpool2 := hpoolmem _ hc1.1
  have hc3 := (hstep _ hpool2).2 hc2.1
  have hpool3 := hpoolmem _ hpool2
  exact ⟨hc1, ⟨hpool2, hc2⟩, ⟨hpool3, hc3⟩, hstep⟩

/-- Witness for the C7 toggle cycle on a concrete fresh key with a blob
source. -/
theorem play_toggle_cycle_witness :
    ("t1__vocals.mp3" ∉ (⟨[], [], []⟩ : PlaybackState).pool) ∧
    (resolveSrc none
        ⟨"t1", "", "T", "", none, [], true, none,
          some [⟨"vocals.mp3", "blob:x"⟩], none, true, none, none⟩
        ⟨"vocals.mp3", "blob:x"⟩).isSome = true ∧
    "t1__vocals.mp3" ∈ (playToggle none ⟨[], [], []⟩ "t1__vocals.mp3"
        ⟨"vocals.mp3", "blob:x"⟩
        ⟨"t1", "", "T", "", none, [], true, none,
          some [⟨"vocals.mp3", "blob:x"⟩], none, true, none, none⟩).playing :=
  ⟨by decide, by decide,
    (play_toggle_cycle none ⟨[], [], []⟩ "t1__vocals.mp3" ⟨"vocals.mp3", "blob:x"⟩
      ⟨"t1", "", "T", "", none, [], true, none,
        some [⟨"vocals.mp3", "blob:x"⟩], none, true, none, none⟩
      (by decide) (by decide) (by decide) (by decide)).1.2.1⟩

/-- C8. The inactivity timer is armed for 10 seconds; when it fires
while the pipeline is online (listening, recorder active) the session goes
offline: the recorder is stopped and the microphone tracks released, the
socket is closed and the timers are cleared. -/
theorem inactivity_timeout_goes_offline (s : VoiceState)
    (hconn : s.conn = .online) (hlist : s.isListening = true)
    (hrec : s.recorder = some true) :
    inactivityTimeoutMs = 10000 ∧
    (onInactivityTimeout s).conn = .offline ∧
    (onInactivityTimeout s).isListening = false ∧
    (onInactivityTimeout s).recorder = none ∧
    (onInactivityTimeout s).micLive = false ∧
    (onInactivityTimeout s).socket = false ∧
    (onInactivityTimeout s).timerArmed = false := by
  have hstop : onInactivityTimeout s = stopListening s := by
    unfold onInactivityTimeout
    rw [hlist]
    simp
  rw [hstop]
  unfold stopListening
  rw [hrec]
  exact ⟨rfl, rfl, rfl, rfl, rfl, rfl, rfl⟩

/-- Witness for the C8 inactivity theorem at a concrete online state. -/
theorem inactivity_timeout_goes_offline_witness :
    ((⟨.online, true, some true, true, true, true, some "Online"⟩ : VoiceState).conn
      = .online) ∧
    (onInactivityTimeout
      ⟨.online, true, some true, true, true, true, some "Online"⟩).micLive = false :=
  ⟨rfl,
    (inactivity_timeout_goes_offline
      ⟨.online, true, some true, true, true, true, some "Online"⟩
      rfl rfl rfl).2.2.2.2.1⟩

/-- C9. The disjointness invariant — no key is simultaneously playing
and paused (together with the auxiliary fact that both sets only mention
pooled keys) — holds of the initial state and is preserved by every
playback operation: both paths of `handlePlayToggle`, `stopAllPlayback`,
the channel teardown of `removeMusicUrl`, and the natural end-of-stream
callback (which fires on a playing channel). -/
theorem playback_invariant_preserved (ps : PlaybackState) (hinv : PlaybackInv ps) :
    (∀ (user : Option String) (key : String) (f : FileEntry) (mu : MusicUrl),
      PlaybackInv (playToggle user ps key f mu)) ∧
    PlaybackInv (stopAllPlayback ps) ∧
    (∀ id : String, PlaybackInv (teardownTrack ps id)) ∧
    (∀ key : String, key ∈ ps.playing → PlaybackInv (onEnded ps key)) ∧
    PlaybackInv ⟨[], [], []⟩ := by
  obtain ⟨hdisj, hplp, hpsp⟩ := hinv
  refine ⟨?_, ?_, ?_, ?_, ?_⟩
  · intro user key f mu
    unfold playToggle
    by_cases hpool : key ∈ ps.pool
    · rw [if_pos hpool]
      by_cases hplay : key ∈ ps.playing
      · rw [if_pos hplay]
        refine ⟨?_, ?_, ?_⟩ <;> intro k hk
        · rw [mem_eraseKey] at hk
          intro hc
          rcases mem_insertKey.mp hc with rfl | hc'
          · exact hk.2 rfl
          · exact hdisj k hk.1 hc'
        · exact hplp k (mem_eraseKey.mp hk).1
        · rcases mem_insertKey.mp hk with rfl | hk'
          · exact hpool
          · exact hpsp k hk'
      · rw [if_neg hplay]
        refine ⟨?_, ?_, ?_⟩ <;> intro k hk
        · rcases mem_insertKey.mp hk with rfl | hk'
          · intro hc
            exact (mem_eraseKey.mp hc).2 rfl
          · intro hc
            exact hdisj k hk' (mem_eraseKey.mp hc).1
        · rcases mem_insertKey.mp hk with rfl | hk'
          · exact hpool
          · exact hplp k hk'
        · exact hpsp k (mem_eraseKey.mp hk).1
    · rw [if_neg hpool]
      cases hres : resolveSrc user mu f with
      | none => exact ⟨hdisj, hplp, hpsp⟩
      | some src =>
        refine ⟨?_, ?_, ?_⟩ <;> intro k hk
        · rcases mem_insertKey.mp hk with rfl | hk'
          · intro hc
            exact hpool (hpsp k hc)
          · exact hdisj k hk'
        · rcases mem_insertKey.mp hk with rfl | hk'
          · exact mem_insertKey.mpr (Or.inl rfl)
          · exact mem_insertKey.mpr (Or.inr (hplp k hk'))
        · exact mem_insertKey.mpr (Or.inr (hpsp k hk))
  · exact ⟨fun k hk => absurd hk (List.not_mem_nil k),
      fun k hk => absurd hk (List.not_mem_nil k),
      fun k hk => absurd hk (List.not_mem_nil k)⟩
  · intro id
    have hparts : ∀ k : String,
        (k ∈ (teardownTrack ps id).pool ↔
          k ∈ ps.pool ∧ ¬(id ++ "__").toList.isPrefixOf k.toList = true) ∧
        (k ∈ (teardownTrack ps id).playing ↔
          k ∈ ps.playing ∧
            k ∉ ps.pool.filter (fun x => (id ++ "__").toList.isPrefixOf x.toList)) ∧
        (k ∈ (teardownTrack ps id).paused ↔
          k ∈ ps.paused ∧
            k ∉ ps.pool.filter (fun x => (id ++ "__").toList.isPrefixOf x.toList)) := by
      intro k
      refine ⟨?_, ?_, ?_⟩ <;>
        simp [teardownTrack, List.mem_filter, Bool.eq_false_iff,
          List.isPrefixOf_iff_prefix] <;>
        tauto
    refine ⟨?_, ?_, ?_⟩ <;> intro k hk
    · rw [(hparts k).2.1] at hk
      intro hc
      rw [(hparts k).2.2] at hc
      exact hdisj k hk.1 hc.1
    · rw [(hparts k).2.1] at hk
      rw [(hparts k).1]
      have hkpool := hplp k hk.1
      exact ⟨hkpool, fun hpre => hk.2 (List.mem_filter.mpr ⟨hkpool, hpre⟩)⟩
    · rw [(hparts k).2.2] at hk
      rw [(hparts k).1]
      have hkpool := hpsp k hk.1
      exact ⟨hkpool, fun hpre => hk.2 (List.mem_filter.mpr ⟨hkpool, hpre⟩)⟩
  · intro key hkey
    refine ⟨?_, ?_, ?_⟩ <;> intro k hk
    · exact hdisj k (mem_eraseKey.mp hk).1
    · obtain ⟨hk1, hk2⟩ := mem_eraseKey.mp hk
      exact mem_eraseKey.mpr ⟨hplp k hk1, hk2⟩
    · refine mem_eraseKey.mpr ⟨hpsp k hk, ?_⟩
      intro hc
      subst hc
      exact hdisj k hkey hk
  · exact ⟨fun k hk => absurd hk (List.not_mem_nil k),
      fun k hk => absurd hk (List.not_mem_nil k),
      fun k hk => absurd hk (List.not_mem_nil k)⟩

/-- Witness for the C9 invariant theorem: from a state with one playing
key, `stopAllPlayback` preserves the invariant. -/
theorem playback_invariant_preserved_witness :
    PlaybackInv (stopAllPlayback ⟨["k"], ["k"], []⟩) :=
  (playback_invariant_preserved ⟨["k"], ["k"], []⟩
    ⟨(by intro k hk; simp), (by intro k hk; simpa using hk),
      (by intro k hk; simp at hk)⟩).2.1

/-- C10. `removeMusicUrl` on a present id: the optimistic removal and
the channel teardown always happen; the backend `DELETE` is issued exactly
when the record carries a remote identity and the session is
authenticated — an anonymous removal performs no network request — and the
outcome of the DELETE (the swallowed failure) changes nothing, so the
optimistic removal is never rolled back. -/
theorem remove_music_url_semantics (urls : List MusicUrl) (user : Option String)
    (ps : PlaybackState) (id : String) (b : Bool) (item : MusicUrl)
    (hfind : urls.find? (fun u => u.id = id) = some item) :
    (removeMusicUrl urls user ps id b).1 = urls.filter (fun u => u.id ≠ id) ∧
    (removeMusicUrl urls user ps id b).2.1 = teardownTrack ps id ∧
    (user = none →
      ∀ sid, RemovalEffect.deleteSong sid ∉ (removeMusicUrl urls user ps id b).2.2) ∧
    (∀ sid, item.song_id = some sid → sid ≠ "" → user ≠ none →
      RemovalEffect.deleteSong sid ∈ (removeMusicUrl urls user ps id b).2.2) ∧
    (∀ b' : Bool, removeMusicUrl urls user ps id b' = removeMusicUrl urls user ps id b) := by
  have hrevokes : ∀ sid, RemovalEffect.deleteSong sid ∉
      (match item.files with
        | none => ([] : List RemovalEffect)
        | some fs =>
          fs.filterMap (fun (f : FileEntry) =>
            if f.blobUrl ≠ "" then some (RemovalEffect.revoke f.blobUrl) else none)) := by
    intro sid hc
    cases hfs : item.files with
    | none =>
      simp only [hfs] at hc
      exact absurd hc (List.not_mem_nil _)
    | some fs =>
      simp only [hfs] at hc
      rcases List.mem_filterMap.mp hc with ⟨f, _, hf⟩
      by_cases hb : f.blobUrl ≠ ""
      · rw [if_pos hb] at hf
        cases hf
      · rw [if_neg hb] at hf
        cases hf
  refine ⟨?_, ?_, ?_, ?_, ?_⟩
  · simp only [removeMusicUrl, hfind]
  · simp only [removeMusicUrl, hfind]
  · intro huser sid
    simp only [removeMusicUrl, hfind]
    subst huser
    rw [if_neg (by simp)]
    rw [List.append_nil]
    exact hrevokes sid
  · intro sid hsid hne huser
    simp only [removeMusicUrl, hfind]
    rw [if_pos ⟨by simp [truthyStr, hsid, hne], huser⟩, hsid]
    exact List.mem_append.mpr (Or.inr (List.mem_singleton.mpr rfl))
  · intro b'
    rfl

/-- Witness for the C10 removal theorem: an anonymous removal of a remote
record issues no DELETE. -/
theorem remove_music_url_semantics_witness :
    (removeMusicUrl
        [⟨"t1", "", "T", "", none, [], true, none, none, none, true, some "s1", none⟩]
        none ⟨[], [], []⟩ "t1" false).1 = [] ∧
    (RemovalEffect.deleteSong "s1" ∉
      (removeMusicUrl
        [⟨"t1", "", "T", "", none, [], true, none, none, none, true, some "s1", none⟩]
        none ⟨[], [], []⟩ "t1" false).2.2) := by
  have h := remove_music_url_semantics
    [⟨"t1", "", "T", "", none, [], true, none, none, none, true, some "s1", none⟩]
    none ⟨[], [], []⟩ "t1" false
    ⟨"t1", "", "T", "", none, [], true, none, none, none, true, some "s1", none⟩
    (by decide)
  refine ⟨?_, h.2.2.1 rfl "s1"⟩
  rw [h.1]
  decide

theorem playToggle_frame (user : Option String) (t : PlaybackState) (key : String)
    (f : FileEntry) (mu : MusicUrl) (k : String) (hk : k ≠ key) :
    (k ∈ (playToggle user t key f mu).playing ↔ k ∈ t.playing) ∧
    (k ∈ (playToggle user t key f mu).paused ↔ k ∈ t.paused) ∧
    (k ∈ (playToggle user t key f mu).pool ↔ k ∈ t.pool) := by
  unfold playToggle
  by_cases hpool : key ∈ t.pool
  · rw [if_pos hpool]
    by_cases hplay : key ∈ t.playing
    · rw [if_pos hplay]
      refine ⟨?_, ?_, Iff.rfl⟩ <;> simp [mem_eraseKey, mem_insertKey, hk]
    · rw [if_neg hplay]
      refine ⟨?_, ?_, Iff.rfl⟩ <;> simp [mem_eraseKey, mem_insertKey, hk]
  · rw [if_neg hpool]
    cases hres : resolveSrc user mu f with
    | none => exact ⟨Iff.rfl, Iff.rfl, Iff.rfl⟩
    | some src =>
      refine ⟨?_, Iff.rfl, ?_⟩ <;> simp [mem_insertKey, hk]

theorem playToggle_starts (user : Option String) (t : PlaybackState) (key : String)
    (f : FileEntry) (mu : MusicUrl) (hnp : key ∉ t.playing)
    (hres : (resolveSrc user mu f).isSome = true) :
    key ∈ (playToggle user t key f mu).playing := by
  unfold playToggle
  by_cases hpool : key ∈ t.pool
  · rw [if_pos hpool, if_neg hnp]
    simp [mem_insertKey]
  · rw [if_neg hpool]
    obtain ⟨src, hsrc⟩ := Option.isSome_iff_exists.mp hres
    rw [hsrc]
    simp [mem_insertKey]

theorem playAllStep_mono (user : Option String) (mu : MusicUrl) (k : String)
    (s : PlaybackState) (f : FileEntry) (hk : k ∈ s.playing) :
    k ∈ (playAllStep user mu s f).playing := by
  unfold playAllStep
  by_cases ho : f.filename = "original.mp3"
  · rw [if_pos ho]
    exact hk
  · rw [if_neg ho]
    by_cases hp : (mu.id ++ "__" ++ f.filename) ∈ s.playing
    · rw [if_pos hp]
      exact hk
    · rw [if_neg hp]
      by_cases hkey : k = mu.id ++ "__" ++ f.filename
      · subst hkey
        exact absurd hk hp
      · exact (playToggle_frame user s _ f mu k hkey).1.mpr hk

theorem foldl_playAllStep_mono (user : Option String) (mu : MusicUrl) (k : String) :
    ∀ (fs : List FileEntry) (s : PlaybackState), k ∈ s.playing →
      k ∈ (fs.foldl (playAllStep user mu) s).playing
  | [], _, hk => hk
  | f :: fs, s, hk =>
    foldl_playAllStep_mono user mu k fs _ (playAllStep_mono user mu k s f hk)

theorem foldl_playAllStep_plays (user : Option String) (mu : MusicUrl) :
    ∀ (fs : List FileEntry) (s : PlaybackState),
      (∀ f ∈ fs, f.filename ≠ "original.mp3" → (resolveSrc user mu f).isSome = true) →
      ∀ f ∈ fs, f.filename ≠ "original.mp3" →
        (mu.id ++ "__" ++ f.filename) ∈ (fs.foldl (playAllStep user mu) s).playing
  | [], _, _, f, hf, _ => absurd hf (List.not_mem_nil f)
  | f0 :: fs, s, hres, f, hf, hno => by
    rw [List.foldl_cons]
    rcases List.mem_cons.mp hf with rfl | hf'
    · apply foldl_playAllStep_mono
      unfold playAllStep
      rw [if_neg hno]
      by_cases hp : (mu.id ++ "__" ++ f.filename) ∈ s.playing
      · rw [if_pos hp]
        exact hp
      · rw [if_neg hp]
        exact playToggle_starts user s _ f mu hp
          (hres f (List.mem_cons_self f fs) hno)
    · exact foldl_playAllStep_plays user mu fs _
        (fun g hg => hres g (List.mem_cons_of_mem f0 hg)) f hf' hno

theorem playAllStep_frame (user : Option String) (mu : MusicUrl)
    (s : PlaybackState) (f : FileEntry) (k : String)
    (h : f.filename = "original.mp3" ∨ mu.id ++ "__" ++ f.filename ≠ k) :
    (k ∈ (playAllStep user mu s f).playing ↔ k ∈ s.playing) ∧
    (k ∈ (playAllStep user mu s f).paused ↔ k ∈ s.paused) ∧
    (k ∈ (playAllStep user mu s f).pool ↔ k ∈ s.pool) := by
  unfold playAllStep
  by_cases ho : f.filename = "original.mp3"
  · rw [if_pos ho]
    exact ⟨Iff.rfl, Iff.rfl, Iff.rfl⟩
  · rw [if_neg ho]
    by_cases hp : (mu.id ++ "__" ++ f.filename) ∈ s.playing
    · rw [if_pos hp]
      exact ⟨Iff.rfl, Iff.rfl, Iff.rfl⟩
    · rw [if_neg hp]
      rcases h with ho' | hk
      · exact absurd ho' ho
      · exact playToggle_frame user s _ f mu k (fun he => hk he.symm)

theorem foldl_playAllStep_frame (user : Option String) (mu : MusicUrl) (k : String) :
    ∀ (fs : List FileEntry) (s : PlaybackState),
      (∀ f ∈ fs, f.filename = "original.mp3" ∨ mu.id ++ "__" ++ f.filename ≠ k) →
      ((k ∈ (fs.foldl (playAllStep user mu) s).playing ↔ k ∈ s.playing) ∧
       (k ∈ (fs.foldl (playAllStep user mu) s).paused ↔ k ∈ s.paused) ∧
       (k ∈ (fs.foldl (playAllStep user mu) s).pool ↔ k ∈ s.pool))
  | [], _, _ => ⟨Iff.rfl, Iff.rfl, Iff.rfl⟩
  | f :: fs, s, h => by
    rw [List.foldl_cons]
    have hstep := playAllStep_frame user mu s f k (h f (List.mem_cons_self f fs))
    have hrest := foldl_playAllStep_frame user mu k fs (playAllStep user mu s f)
      (fun g hg => h g (List.mem_cons_of_mem f hg))
    exact ⟨hrest.1.trans hstep.1, hrest.2.1.trans hstep.2.1, hrest.2.2.trans hstep.2.2⟩

/-- C6. "play all"/"play music" with an empty library matches without
any effect; with a non-empty library the single effect is playing the first
(most recently added) track.  `handlePlayAll` then puts every file of that
track except `original.mp3` into the playing set (files already playing
are skipped and stay playing), given each such file resolves a source, and
touches no other key — in particular the `original.mp3` key. -/
theorem play_all_command :
    (processCommand [] "play all" = (true, []) ∧
      processCommand [] "play music" = (true, [])) ∧
    (∀ (u : MusicUrl) (rest : List MusicUrl),
      processCommand (u :: rest) "play all" = (true, [.playAll u]) ∧
      processCommand (u :: rest) "play music" = (true, [.playAll u])) ∧
    (∀ (user : Option String) (ps : PlaybackState) (mu : MusicUrl)
        (fs : List FileEntry),
      mu.files = some fs →
      (∀ f ∈ fs, f.filename ≠ "original.mp3" → (resolveSrc user mu f).isSome = true) →
      (∀ f ∈ fs, f.filename ≠ "original.mp3" →
        (mu.id ++ "__" ++ f.filename) ∈ (handlePlayAll user ps mu).playing) ∧
      (∀ k, (∀ f ∈ fs, f.filename = "original.mp3" ∨ mu.id ++ "__" ++ f.filename ≠ k) →
        ((k ∈ (handlePlayAll user ps mu).playing ↔ k ∈ ps.playing) ∧
         (k ∈ (handlePlayAll user ps mu).paused ↔ k ∈ ps.paused) ∧
         (k ∈ (handlePlayAll user ps mu).pool ↔ k ∈ ps.pool)))) := by
  refine ⟨⟨rfl, rfl⟩, fun u rest => ⟨rfl, rfl⟩, ?_⟩
  intro user ps mu fs hfiles hres
  have hfold : handlePlayAll user ps mu = fs.foldl (playAllStep user mu) ps := by
    unfold handlePlayAll
    rw [hfiles]
  constructor
  · intro f hf hno
    rw [hfold]
    exact foldl_playAllStep_plays user mu fs ps hres f hf hno
  · intro k hk
    rw [hfold]
    exact foldl_playAllStep_frame user mu k fs ps hk

/-- Witness for the C6 play-all theorem: a two-file track (original plus a
blob-backed vocals stem) ends with the vocals key playing and the original
key untouched. -/
theorem play_all_command_witness :
    ("t1__vocals.mp3" ∈ (handlePlayAll none ⟨[], [], []⟩
      ⟨"t1", "", "T", "", none, [], true, none,
        some [⟨"original.mp3", "blob:o"⟩, ⟨"vocals.mp3", "blob:v"⟩],
        none, true, none, none⟩).playing) ∧
    ("t1__original.mp3" ∈ (handlePlayAll none ⟨[], [], []⟩
      ⟨"t1", "", "T", "", none, [], true, none,
        some [⟨"original.mp3", "blob:o"⟩, ⟨"vocals.mp3", "blob:v"⟩],
        none, true, none, none⟩).playing ↔
      "t1__original.mp3" ∈ (⟨[], [], []⟩ : PlaybackState).playing) :=
  ⟨(play_all_command.2.2 none ⟨[], [], []⟩
      ⟨"t1", "", "T", "", none, [], true, none,
        some [⟨"original.mp3", "blob:o"⟩, ⟨"vocals.mp3", "blob:v"⟩],
        none, true, none, none⟩
      [⟨"original.mp3", "blob:o"⟩, ⟨"vocals.mp3", "blob:v"⟩]
      rfl (by decide)).1 ⟨"vocals.mp3", "blob:v"⟩ (by decide) (by decide),
    ((play_all_command.2.2 none ⟨[], [], []⟩
      ⟨"t1", "", "T", "", none, [], true, none,
        some [⟨"original.mp3", "blob:o"⟩, ⟨"vocals.mp3", "blob:v"⟩],
        none, true, none, none⟩
      [⟨"original.mp3", "blob:o"⟩, ⟨"vocals.mp3", "blob:v"⟩]
      rfl (by decide)).2 "t1__original.mp3" (by decide)).1⟩

end Splitsonic
